import Mathlib

/-!
Verification of the cache + rate-limiter core of the medication-price-chatbot
backend (`backend/cache.py`, `backend/rate_limit.py`, `backend/errors.py`,
and the decorator composition in `backend/main.py`).

The Python code is shallowly embedded:

* Python values that can appear as tool arguments are modelled by `PyVal`
  (mutually inductive with `PyList` for lists/tuples and `PyFields` for the
  field sequence of a dict, so that all functions below are structurally
  recursive and computable); `PyVal.vobj` stands for an arbitrary object that
  `json.dumps` cannot serialize.
* `json.dumps(-, sort_keys=True)` is modelled by `dumps`, which fails
  (`Except.error`, the Python `TypeError`) on non-serializable values and
  renders dict fields in ascending key order.
* Python dicts with string keys are modelled as association lists with the
  usual get/overwrite/delete operations (`alGet`, `alSet`, `alErase`).
* Wall-clock time (`time.time()` / `datetime.now()`) is passed explicitly as
  a rational number; token counts are rationals (Python floats denote reals).
* `async` plays no role in the properties below (all cache and bucket
  bookkeeping is synchronous in the source), so wrapped coroutines are
  modelled as functions returning `Except` (an exception or a value).
-/

mutual

/-- Model of a Python value that may be passed as a tool argument.
`vnone` is Python `None`; `vobj s` stands for an object of type `s` that is
not JSON-serializable (no corresponding JSON form exists). -/
inductive PyVal where
  | vnone : PyVal
  | vbool : Bool → PyVal
  | vint : Int → PyVal
  | vstr : String → PyVal
  | vlist : PyList → PyVal
  | vdict : PyFields → PyVal
  | vobj : String → PyVal

/-- A sequence of Python values (a list or tuple). -/
inductive PyList where
  | nil : PyList
  | cons : PyVal → PyList → PyList

/-- The field sequence of a Python dict with string keys, in insertion
order. -/
inductive PyFields where
  | nil : PyFields
  | cons : String → PyVal → PyFields → PyFields

end

/-- The elements of a `PyList` as a Lean list. -/
def PyList.toList : PyList → List PyVal
  | .nil => []
  | .cons x xs => x :: xs.toList

/-- The fields of a `PyFields` as a Lean association list. -/
def PyFields.toList : PyFields → List (String × PyVal)
  | .nil => []
  | .cons k v fs => (k, v) :: fs.toList

/-- JSON string escaping as performed by `json.dumps` on the characters that
matter here (backslash, quote, and the common control characters). -/
def escapeChar (c : Char) : String :=
  if c = '\\' then "\\\\"
  else if c = '"' then "\\\""
  else if c = '\n' then "\\n"
  else if c = '\t' then "\\t"
  else if c = '\r' then "\\r"
  else String.singleton c

/-- `json.dumps` of a Python string: quoted, with characters escaped. -/
def dumpStr (s : String) : String :=
  "\"" ++ String.join (s.data.map escapeChar) ++ "\""

/-- Computable lexicographic strict comparison of character lists by code
point, matching Python's `str.__lt__` (which drives `sorted`). -/
def lexLtb : List Char → List Char → Bool
  | [], [] => false
  | [], _ :: _ => true
  | _ :: _, [] => false
  | c :: cs, d :: ds =>
      if c.toNat < d.toNat then true
      else if d.toNat < c.toNat then false
      else lexLtb cs ds

/-- Computable strict comparison of strings (Python `str.__lt__`). -/
def strLtb (a b : String) : Bool := lexLtb a.data b.data

theorem charLt_iff_toNat (c d : Char) : c < d ↔ c.toNat < d.toNat :=
  ⟨fun h => h, fun h => h⟩

theorem char_eq_of_toNat_eq {c d : Char} (h : c.toNat = d.toNat) : c = d :=
  Char.ext (UInt32.ext h)

theorem lexLtb_iff (a b : List Char) :
    lexLtb a b = true ↔ List.Lex (· < ·) a b := by
  induction a generalizing b with
  | nil =>
    cases b with
    | nil => exact ⟨fun h => (nomatch h), fun h => (nomatch h)⟩
    | cons d ds => exact ⟨fun _ => List.Lex.nil, fun _ => rfl⟩
  | cons c cs ih =>
    cases b with
    | nil => exact ⟨fun h => (nomatch h), fun h => (nomatch h)⟩
    | cons d ds =>
      show (if c.toNat < d.toNat then true
            else if d.toNat < c.toNat then false else lexLtb cs ds) = true ↔ _
      by_cases h₁ : c.toNat < d.toNat
      · rw [if_pos h₁]
        exact ⟨fun _ => List.Lex.rel ((charLt_iff_toNat c d).2 h₁), fun _ => rfl⟩
      · rw [if_neg h₁]
        by_cases h₂ : d.toNat < c.toNat
        · rw [if_pos h₂]
          constructor
          · intro h
            exact nomatch h
          · intro h
            cases h with
            | cons h => exact absurd h₂ (lt_irrefl _)
            | rel h => exact absurd ((charLt_iff_toNat c d).1 h) h₁
        · rw [if_neg h₂, ih]
          have hcd : c = d := char_eq_of_toNat_eq (le_antisymm (not_lt.1 h₂) (not_lt.1 h₁))
          subst hcd
          constructor
          · intro h
            exact List.Lex.cons h
          · intro h
            cases h with
            | cons h => exact h
            | rel h => exact absurd h (lt_irrefl c)

theorem strLtb_iff (a b : String) : strLtb a b = true ↔ a < b := by
  rw [String.lt_iff_toList_lt]
  exact lexLtb_iff a.data b.data

/-- Key order used by `json.dumps(-, sort_keys=True)`: compare the key
components of two rendered dict fields (computably, so that sorting
evaluates inside the kernel). -/
def keyLE (p q : String × String) : Prop := !(strLtb q.1 p.1) = true

instance : DecidableRel keyLE :=
  fun p q => inferInstanceAs (Decidable (!(strLtb q.1 p.1) = true))

theorem keyLE_iff (p q : String × String) : keyLE p q ↔ p.1 ≤ q.1 := by
  unfold keyLE
  rw [Bool.not_eq_true', ← not_lt, ← strLtb_iff]
  cases hb : strLtb q.1 p.1 with
  | false => simp
  | true => simp

instance : IsTotal (String × String) keyLE :=
  ⟨fun p q => by
    rw [keyLE_iff, keyLE_iff]
    exact le_total p.1 q.1⟩

instance : IsTrans (String × String) keyLE :=
  ⟨fun a b c h h₂ => by
    rw [keyLE_iff] at *
    exact le_trans h h₂⟩

/-- Strict key order, used to show sorted dict renderings are unique. -/
def keyLT (p q : String × String) : Prop := p.1 < q.1

instance : IsAntisymm (String × String) keyLT :=
  ⟨fun _ _ h h₂ => absurd h₂ (lt_asymm h)⟩

/-- Sort rendered dict fields by key, as `sort_keys=True` does.  (Sorting the
rendered `(key, rendered value)` pairs by key agrees with sorting the fields
first, because each value is rendered independently of its position.) -/
def sortPairs (l : List (String × String)) : List (String × String) :=
  List.insertionSort keyLE l

/-- Render one sorted dict field the way `json.dumps` does, with the default
`': '` key separator. -/
def renderField (p : String × String) : String :=
  dumpStr p.1 ++ ": " ++ p.2

mutual

/-- `json.dumps(v, sort_keys=True)` with the default separators `', '` and
`': '`.  Returns `Except.error` (the Python `TypeError`) when `v` contains a
non-serializable object. -/
def dumps : PyVal → Except String String
  | .vnone => .ok "null"
  | .vbool true => .ok "true"
  | .vbool false => .ok "false"
  | .vint n => .ok (toString n)
  | .vstr s => .ok (dumpStr s)
  | .vlist xs =>
      match dumpsList xs with
      | .error m => .error m
      | .ok ss => .ok ("[" ++ String.intercalate ", " ss ++ "]")
  | .vdict fs =>
      match dumpsFields fs with
      | .error m => .error m
      | .ok ps =>
          .ok ("\x7b" ++ String.intercalate ", " ((sortPairs ps).map renderField) ++ "\x7d")
  | .vobj s => .error ("Object of type " ++ s ++ " is not JSON serializable")

/-- Render the elements of a JSON array in order. -/
def dumpsList : PyList → Except String (List String)
  | .nil => .ok []
  | .cons x xs =>
      match dumps x with
      | .error m => .error m
      | .ok s =>
          match dumpsList xs with
          | .error m => .error m
          | .ok ss => .ok (s :: ss)

/-- Render the fields of a dict as `(key, rendered value)` pairs, in the
dict's own order (sorting happens afterwards in `dumps`). -/
def dumpsFields : PyFields → Except String (List (String × String))
  | .nil => .ok []
  | .cons k v fs =>
      match dumps v with
      | .error m => .error m
      | .ok s =>
          match dumpsFields fs with
          | .error m => .error m
          | .ok ps => .ok ((k, s) :: ps)

end

/-- Python dict read: `d.get(k)` / `k in d`. -/
def alGet (k : String) : List (String × β) → Option β
  | [] => none
  | (k₂, v) :: rest => if k = k₂ then some v else alGet k rest

/-- Python dict write: `d[k] = v` (overwrite in place, else append). -/
def alSet (k : String) (v : β) : List (String × β) → List (String × β)
  | [] => [(k, v)]
  | (k₂, v₂) :: rest => if k = k₂ then (k, v) :: rest else (k₂, v₂) :: alSet k v rest

/-- Python dict delete: `del d[k]`. -/
def alErase (k : String) : List (String × β) → List (String × β)
  | [] => []
  | (k₂, v₂) :: rest => if k = k₂ then rest else (k₂, v₂) :: alErase k rest

/-- `MCPCache._generate_key` (cache.py lines 19-25) up to the final SHA-256
digest: the string
`f"\x7btool_name\x7d:\x7bargs_str\x7d:\x7bkwargs_str\x7d"`
that the source feeds to `hashlib.sha256`.  The digest is a fixed
deterministic function of this string, so key determinism is exactly
determinism of this string, and the spec's "never collide by construction
(operation name is part of the hashed input)" is a statement about this
hashed input.  `json.dumps` raising on a non-serializable argument is the
`Except.error` case. -/
def generateKey (tool_name : String) (args : PyList)
    (kwargs : PyFields) : Except String String :=
  match dumps (.vlist args) with
  | .error m => .error m
  | .ok argsStr =>
      match dumps (.vdict kwargs) with
      | .error m => .error m
      | .ok kwargsStr => .ok (tool_name ++ ":" ++ argsStr ++ ":" ++ kwargsStr)

theorem sortPairs_perm (l : List (String × String)) : (sortPairs l).Perm l :=
  List.perm_insertionSort keyLE l

theorem sortPairs_sorted (l : List (String × String)) :
    List.Sorted keyLE (sortPairs l) :=
  List.sorted_insertionSort keyLE l

/-- A key-sorted list of rendered fields with pairwise-distinct keys is
determined by its multiset of fields: sorting any permutation of a
duplicate-key-free field list gives the same result. -/
theorem sortPairs_eq_of_perm {l₁ l₂ : List (String × String)}
    (h : l₁.Perm l₂) (hnd : (l₁.map Prod.fst).Nodup) :
    sortPairs l₁ = sortPairs l₂ := by
  have hp : (sortPairs l₁).Perm (sortPairs l₂) :=
    ((sortPairs_perm l₁).trans h).trans (sortPairs_perm l₂).symm
  have hnd₁ : ((sortPairs l₁).map Prod.fst).Nodup :=
    (((sortPairs_perm l₁).map Prod.fst).nodup_iff).2 hnd
  have hnd₂ : ((sortPairs l₂).map Prod.fst).Nodup :=
    ((hp.map Prod.fst).nodup_iff).1 hnd₁
  have hne₁ : (sortPairs l₁).Pairwise (fun p q => p.1 ≠ q.1) :=
    List.pairwise_map.1 hnd₁
  have hne₂ : (sortPairs l₂).Pairwise (fun p q => p.1 ≠ q.1) :=
    List.pairwise_map.1 hnd₂
  have hlt₁ : List.Sorted keyLT (sortPairs l₁) :=
    ((sortPairs_sorted l₁).and hne₁).imp
      (fun h₂ => lt_of_le_of_ne ((keyLE_iff _ _).1 h₂.1) h₂.2)
  have hlt₂ : List.Sorted keyLT (sortPairs l₂) :=
    ((sortPairs_sorted l₂).and hne₂).imp
      (fun h₂ => lt_of_le_of_ne ((keyLE_iff _ _).1 h₂.1) h₂.2)
  exact List.eq_of_perm_of_sorted hp hlt₁ hlt₂

/-- The rendered value of a field whose value serializes successfully
(total version of `dumps`, defined for stating `dumpsFields_ok`). -/
def dumpField (kv : String × PyVal) : String × String :=
  (kv.1, match dumps kv.2 with | .ok s => s | .error _ => "")

theorem dumpsFields_ok_eq : ∀ {fs : PyFields} {ps : List (String × String)},
    dumpsFields fs = .ok ps → ps = fs.toList.map dumpField
  | .nil, ps, h => by cases h; rfl
  | .cons k v fs, ps, h => by
    cases hv : dumps v with
    | error m => rw [dumpsFields, hv] at h; exact nomatch h
    | ok s =>
      cases hfs : dumpsFields fs with
      | error m => rw [dumpsFields, hv, hfs] at h; exact nomatch h
      | ok ps₂ =>
        rw [dumpsFields, hv, hfs] at h
        cases h
        show (k, s) :: ps₂ = (k, match dumps v with | .ok s => s | .error _ => "") :: _
        rw [hv, dumpsFields_ok_eq hfs]

theorem dumpsFields_ok_mem : ∀ {fs : PyFields} {ps : List (String × String)},
    dumpsFields fs = .ok ps → ∀ kv ∈ fs.toList, ∃ s, dumps kv.2 = .ok s
  | .nil, ps, _, kv, hkv => absurd hkv (List.not_mem_nil kv)
  | .cons k v fs, ps, h, kv, hkv => by
    cases hv : dumps v with
    | error m => rw [dumpsFields, hv] at h; exact nomatch h
    | ok s =>
      cases hfs : dumpsFields fs with
      | error m => rw [dumpsFields, hv, hfs] at h; exact nomatch h
      | ok ps₂ =>
        rcases List.mem_cons.1 hkv with h₂ | h₂
        · subst h₂; exact ⟨s, hv⟩
        · exact dumpsFields_ok_mem hfs kv h₂

theorem dumpsFields_exists_ok : ∀ {fs : PyFields},
    (∀ kv ∈ fs.toList, ∃ s, dumps kv.2 = .ok s) →
    ∃ ps, dumpsFields fs = .ok ps
  | .nil, _ => ⟨[], rfl⟩
  | .cons k v fs, h => by
    obtain ⟨s, hs⟩ := h (k, v) (List.mem_cons_self _ _)
    obtain ⟨ps, hps⟩ := dumpsFields_exists_ok
      (fun kv hkv => h kv (List.mem_cons_of_mem _ hkv))
    exact ⟨(k, s) :: ps, by rw [dumpsFields, hs, hps]⟩

/-- One cache entry (`cache.py` lines 42-45): the stored Python value
(`Option V`, where `none` models Python `None`) and its expiry timestamp. -/
structure CacheEntry (V : Type) where
  value : Option V
  expires_at : ℚ
deriving DecidableEq

/-- `MCPCache` (cache.py lines 12-17): the `_cache` dict (an association
list keyed by the generated cache key) and `_ttl_seconds`. -/
structure MCPCache (V : Type) where
  cache : List (String × CacheEntry V)
  ttl_seconds : ℚ
deriving DecidableEq

/-- `MCPCache.__init__(ttl_seconds=3600)`: empty dict, stored default TTL.
The module-level singleton `mcp_cache` is `MCPCache.init 3600`. -/
def MCPCache.init (ttl_seconds : ℚ := 3600) : MCPCache V :=
  ⟨[], ttl_seconds⟩

/-- `MCPCache.get` (cache.py lines 27-37), with `datetime.now()` passed as
`now`.  Returns the Python return value (`none` both for a missing/expired
key and for a stored `None`) together with the cache state after the call
(an expired entry is deleted on read). -/
def MCPCache.get (c : MCPCache V) (key : String) (now : ℚ) :
    Option V × MCPCache V :=
  match alGet key c.cache with
  | none => (none, c)
  | some entry =>
      if now > entry.expires_at then
        (none, { c with cache := alErase key c.cache })
      else
        (entry.value, c)

/-- Python's `ttl_seconds or self._ttl_seconds` (cache.py line 41): both
`None` and `0` are falsy, so both select the cache's default TTL. -/
def ttlOrDefault (ttl_seconds : Option ℚ) (default : ℚ) : ℚ :=
  match ttl_seconds with
  | none => default
  | some t => if t = 0 then default else t

/-- `MCPCache.set` (cache.py lines 39-45): store the value with
`expires_at = now + (ttl_seconds or self._ttl_seconds)`, overwriting any
prior entry for the key. -/
def MCPCache.set (c : MCPCache V) (key : String) (value : Option V)
    (ttl_seconds : Option ℚ) (now : ℚ) : MCPCache V :=
  { c with cache :=
      alSet key ⟨value, now + ttlOrDefault ttl_seconds c.ttl_seconds⟩ c.cache }

/-- The failures a wrapped call can surface:
`serialization` is the `TypeError` raised by `json.dumps` inside
`_generate_key`; `rateLimited tool retry` is `MCPRateLimitError` with the
operation name and the computed retry-after hint (the two values
interpolated into its message, errors.py lines 46-53 and rate_limit.py
lines 76-80); `keyError` is the `KeyError` from `self.limiters["default"]`
when no `"default"` bucket exists (unreachable for registries built by
`RateLimiter.init`); `fromFunc e` is a failure raised by the wrapped
operation itself. -/
inductive CallErr (E : Type) where
  | serialization : String → CallErr E
  | rateLimited : String → ℚ → CallErr E
  | keyError : CallErr E
  | fromFunc : E → CallErr E
deriving DecidableEq

/-- The `wrapper` closure of `cache_mcp_result` (cache.py lines 64-83) for a
wrapped operation `f` named `fname` (its `func.__name__`): generate the key,
try the cache (`tGet` is `datetime.now()` at the `get`), on a miss run `f`
and cache its result (`tSet` is `datetime.now()` at the `set`).  The last
component records whether the wrapped operation was invoked (the test
suite's `call_count`). -/
def cacheWrapper (fname : String) (ttl_seconds : Option ℚ)
    (f : PyList → PyFields → Except E (Option V))
    (args : PyList) (kwargs : PyFields)
    (c : MCPCache V) (tGet tSet : ℚ) :
    Except (CallErr E) (Option V) × MCPCache V × Bool :=
  match generateKey fname args kwargs with
  | .error m => (.error (.serialization m), c, false)
  | .ok key =>
      let (cached_result, c₂) := c.get key tGet
      match cached_result with
      | some v => (.ok (some v), c₂, false)
      | none =>
          match f args kwargs with
          | .error e => (.error (.fromFunc e), c₂, true)
          | .ok result => (.ok result, c₂.set key result ttl_seconds tSet, true)

/-- `TokenBucket` (rate_limit.py lines 12-19): refill rate (tokens/second),
integer capacity, current (real-valued) token count, and the timestamp of
the last refill. -/
structure TokenBucket where
  rate : ℚ
  capacity : ℤ
  tokens : ℚ
  last_update : ℚ
deriving DecidableEq

/-- `TokenBucket.__init__`: starts full (`tokens = capacity`) with
`last_update = time.time()`. -/
def TokenBucket.init (rate : ℚ) (capacity : ℤ) (now : ℚ) : TokenBucket :=
  ⟨rate, capacity, (capacity : ℚ), now⟩

/-- `TokenBucket._add_tokens` (rate_limit.py lines 21-28): continuous
refill by `elapsed * rate`, clamped at `capacity`. -/
def TokenBucket.addTokens (b : TokenBucket) (now : ℚ) : TokenBucket :=
  let elapsed := now - b.last_update
  let new_tokens := elapsed * b.rate
  { b with tokens := min (b.capacity : ℚ) (b.tokens + new_tokens),
           last_update := now }

/-- `TokenBucket.acquire` (rate_limit.py lines 30-38): refill, then either
deduct `cost` and succeed, or leave the (refilled) count unchanged and
fail.  (`cost` is the `tokens` parameter of the source, default 1.) -/
def TokenBucket.acquire (b : TokenBucket) (cost : ℤ) (now : ℚ) :
    Bool × TokenBucket :=
  let b₂ := b.addTokens now
  if (cost : ℚ) ≤ b₂.tokens then
    (true, { b₂ with tokens := b₂.tokens - (cost : ℚ) })
  else
    (false, b₂)

/-- The static limit table of `RateLimiter.__init__`
(rate_limit.py lines 45-51): `(rate, capacity)` per tool name. -/
def toolLimitsInit : List (String × (ℚ × ℤ)) :=
  [("search_medication_price", (5, 10)),
   ("find_generic_alternatives", (2, 5)),
   ("find_pharmacies", (2, 5)),
   ("compare_prices", (1, 3)),
   ("default", (10, 20))]

/-- `RateLimiter` (rate_limit.py lines 40-56): the limit table and one
`TokenBucket` per configured tool. -/
structure RateLimiter where
  tool_limits : List (String × (ℚ × ℤ))
  limiters : List (String × TokenBucket)
deriving DecidableEq

/-- `RateLimiter.__init__` at time `now`: buckets created from the static
table.  The module-level singleton `rate_limiter` is `RateLimiter.init t₀`
for the import time `t₀`. -/
def RateLimiter.init (now : ℚ) : RateLimiter :=
  { tool_limits := toolLimitsInit,
    limiters := toolLimitsInit.map
      (fun p => (p.1, TokenBucket.init p.2.1 p.2.2 now)) }

/-- `RateLimiter.check_rate_limit` (rate_limit.py lines 58-61):
`self.limiters.get(tool_name, self.limiters["default"])`, then `acquire`.
The first component is `some ok` for a completed check and `none` for the
`KeyError` raised when neither the tool nor `"default"` has a bucket. -/
def RateLimiter.checkRateLimit (rl : RateLimiter) (tool_name : String)
    (cost : ℤ) (now : ℚ) : Option Bool × RateLimiter :=
  match alGet tool_name rl.limiters with
  | some b =>
      let (ok, b₂) := b.acquire cost now
      (some ok, { rl with limiters := alSet tool_name b₂ rl.limiters })
  | none =>
      match alGet "default" rl.limiters with
      | some b =>
          let (ok, b₂) := b.acquire cost now
          (some ok, { rl with limiters := alSet "default" b₂ rl.limiters })
      | none => (none, rl)

/-- The `wrapper` closure of `rate_limit` (rate_limit.py lines 66-84)
around an arbitrary wrapped operation `g`: resolve the tool name
(`tool_name or func.__name__`), check the rate limit, and on failure raise
`MCPRateLimitError` with the tool name and
`1.0 / rate_limiter.tool_limits.get(actual_tool, (1, 1))[0]` — without
invoking `g`.  The last component records whether `g` was invoked. -/
def rateLimitWrapper (tool_name : Option String) (fname : String)
    (cost : ℤ) (g : α → Except E β) (x : α) (rl : RateLimiter) (now : ℚ) :
    Except (CallErr E) β × RateLimiter × Bool :=
  let actual_tool := tool_name.getD fname
  match rl.checkRateLimit actual_tool cost now with
  | (some true, rl₂) =>
      match g x with
      | .ok y => (.ok y, rl₂, true)
      | .error e => (.error (.fromFunc e), rl₂, true)
  | (some false, rl₂) =>
      (.error (.rateLimited actual_tool
        (1 / ((alGet actual_tool rl.tool_limits).getD (1, 1)).1)), rl₂, false)
  | (none, rl₂) => (.error .keyError, rl₂, false)

/-- One call to an operation wrapped as in `main.py` (e.g. lines 320-321):
`@rate_limit(tool)` applied on top of `@cache_mcp_result(ttl)` applied to
`f`, so the limiter is outermost and the cache innermost.  The call is
checked against the limiter first; only if it passes does the cache-wrapped
body run.  The last component records whether the underlying `f` was
invoked. -/
def composedCall (tool_name : Option String) (fname : String) (cost : ℤ)
    (ttl_seconds : Option ℚ)
    (f : PyList → PyFields → Except E (Option V))
    (args : PyList) (kwargs : PyFields)
    (rl : RateLimiter) (c : MCPCache V) (now tSet : ℚ) :
    Except (CallErr E) (Option V) × RateLimiter × MCPCache V × Bool :=
  let actual_tool := tool_name.getD fname
  match rl.checkRateLimit actual_tool cost now with
  | (some true, rl₂) =>
      let (r, c₂, invoked) := cacheWrapper fname ttl_seconds f args kwargs c now tSet
      (r, rl₂, c₂, invoked)
  | (some false, rl₂) =>
      (.error (.rateLimited actual_tool
        (1 / ((alGet actual_tool rl.tool_limits).getD (1, 1)).1)), rl₂, c, false)
  | (none, rl₂) => (.error .keyError, rl₂, c, false)

theorem alGet_alSet_self (k : String) (v : β) (l : List (String × β)) :
    alGet k (alSet k v l) = some v := by
  induction l with
  | nil => simp [alGet, alSet]
  | cons p rest ih =>
    by_cases h : k = p.1
    · simp [alGet, alSet, h]
    · simp only [alSet, alGet]
      rw [if_neg (by exact h), alGet, if_neg (by exact h)]
      exact ih

theorem alGet_eq_none_of_not_mem (k : String) (l : List (String × β))
    (h : k ∉ l.map Prod.fst) : alGet k l = none := by
  induction l with
  | nil => rfl
  | cons p rest ih =>
    rw [List.map_cons, List.mem_cons] at h
    push_neg at h
    rw [alGet, if_neg h.1]
    exact ih h.2

theorem alGet_alErase_self (k : String) (l : List (String × β))
    (hnd : (l.map Prod.fst).Nodup) : alGet k (alErase k l) = none := by
  induction l with
  | nil => rfl
  | cons p rest ih =>
    rw [List.map_cons, List.nodup_cons] at hnd
    by_cases h : k = p.1
    · subst h
      rw [alErase, if_pos rfl]
      exact alGet_eq_none_of_not_mem _ _ hnd.1
    · rw [alErase, if_neg (by exact h), alGet, if_neg (by exact h)]
      exact ih hnd.2

theorem MCPCache.get_of_alGet_none {c : MCPCache V} {key : String} (now : ℚ)
    (h : alGet key c.cache = none) : c.get key now = (none, c) := by
  rw [MCPCache.get, h]

theorem MCPCache.get_ttl_eq (c : MCPCache V) (key : String) (now : ℚ) :
    ((c.get key now).2).ttl_seconds = c.ttl_seconds := by
  rw [MCPCache.get]
  cases alGet key c.cache with
  | none => rfl
  | some entry =>
    by_cases h : now > entry.expires_at
    · simp [h]
    · simp [h]

/-- C4: for every token bucket and every `acquire` call with cost `c`, the
bucket first gains `elapsed * rate` tokens (real-valued, clamped above by
`capacity`); then, if the refilled count is at least `c`, exactly `c`
tokens are deducted and `acquire` returns true, otherwise the (refilled)
count is left undeducted and `acquire` returns false. -/
theorem acquire_refill_then_deduct (b : TokenBucket) (cost : ℤ) (now : ℚ) :
    ((cost : ℚ) ≤ min ((b.capacity : ℚ)) (b.tokens + (now - b.last_update) * b.rate) →
      b.acquire cost now =
        (true,
         { rate := b.rate, capacity := b.capacity,
           tokens := min ((b.capacity : ℚ))
             (b.tokens + (now - b.last_update) * b.rate) - (cost : ℚ),
           last_update := now })) ∧
    (min ((b.capacity : ℚ)) (b.tokens + (now - b.last_update) * b.rate) < (cost : ℚ) →
      b.acquire cost now =
        (false,
         { rate := b.rate, capacity := b.capacity,
           tokens := min ((b.capacity : ℚ))
             (b.tokens + (now - b.last_update) * b.rate),
           last_update := now })) := by
  constructor
  · intro h
    simp [TokenBucket.acquire, TokenBucket.addTokens, h]
  · intro h
    simp [TokenBucket.acquire, TokenBucket.addTokens, not_le.2 h]

theorem acquire_refill_then_deduct_witness :
    (1 : ℚ) ≤ min (((10 : ℤ) : ℚ)) (1 + ((3/10 : ℚ) - 0) * 5) ∧
    TokenBucket.acquire ⟨5, 10, 1, 0⟩ 1 (3/10) =
      (true,
       { rate := 5, capacity := 10,
         tokens := min (((10 : ℤ) : ℚ)) (1 + ((3/10 : ℚ) - 0) * 5) - (1 : ℚ),
         last_update := 3/10 }) :=
  ⟨by norm_num, (acquire_refill_then_deduct ⟨5, 10, 1, 0⟩ 1 (3/10)).1 (by norm_num)⟩

/-- C5: a bucket created with capacity `C ≥ 0` starts with
`0 ≤ tokens ≤ C`, and (for nonnegative rate and cost and a monotone clock)
every `acquire` preserves `0 ≤ tokens ≤ capacity`: it either fully
succeeds, deducting exactly the requested amount from the refilled count,
or fully fails, deducting nothing, and tokens never go negative. -/
theorem tokenBucket_invariant_holds :
    (∀ (rate : ℚ) (capacity : ℤ) (t₀ : ℚ), 0 ≤ capacity →
      0 ≤ (TokenBucket.init rate capacity t₀).tokens ∧
      (TokenBucket.init rate capacity t₀).tokens ≤
        (((TokenBucket.init rate capacity t₀).capacity : ℚ))) ∧
    (∀ (b : TokenBucket) (cost : ℤ) (now : ℚ),
      0 ≤ b.rate → 0 ≤ b.capacity → 0 ≤ cost → b.last_update ≤ now →
      0 ≤ b.tokens → b.tokens ≤ ((b.capacity : ℚ)) →
      (0 ≤ ((b.acquire cost now).2).tokens ∧
       ((b.acquire cost now).2).tokens ≤ ((((b.acquire cost now).2).capacity : ℚ))) ∧
      ((b.acquire cost now).1 = true →
        ((b.acquire cost now).2).tokens = (b.addTokens now).tokens - (cost : ℚ)) ∧
      ((b.acquire cost now).1 = false →
        ((b.acquire cost now).2).tokens = (b.addTokens now).tokens)) := by
  constructor
  · intro rate capacity t₀ hcap
    refine ⟨?_, le_refl _⟩
    show (0 : ℚ) ≤ (capacity : ℚ)
    exact_mod_cast hcap
  · intro b cost now hrate hcap hcost hnow htok htokcap
    have hX : 0 ≤ b.tokens + (now - b.last_update) * b.rate :=
      add_nonneg htok (mul_nonneg (sub_nonneg.2 hnow) hrate)
    have hcapQ : (0 : ℚ) ≤ (b.capacity : ℚ) := by exact_mod_cast hcap
    have hcostQ : (0 : ℚ) ≤ (cost : ℚ) := by exact_mod_cast hcost
    have hR0 : 0 ≤ min ((b.capacity : ℚ)) (b.tokens + (now - b.last_update) * b.rate) :=
      le_min hcapQ hX
    have hRcap : min ((b.capacity : ℚ)) (b.tokens + (now - b.last_update) * b.rate) ≤
        (b.capacity : ℚ) := min_le_left _ _
    by_cases hc : (cost : ℚ) ≤
        min ((b.capacity : ℚ)) (b.tokens + (now - b.last_update) * b.rate)
    · refine ⟨⟨?_, ?_⟩, ?_, ?_⟩ <;>
        simp only [TokenBucket.acquire, TokenBucket.addTokens, hc, if_pos]
      · exact sub_nonneg.2 hc
      · exact le_trans (sub_le_self _ hcostQ) hRcap
      · intro _
        trivial
      · intro h
        exact nomatch h
    · refine ⟨⟨?_, ?_⟩, ?_, ?_⟩ <;>
        simp only [TokenBucket.acquire, TokenBucket.addTokens, hc, if_neg, if_false]
      · exact hR0
      · exact hRcap
      · intro h
        exact nomatch h
      · intro _
        trivial

theorem tokenBucket_invariant_holds_witness :
    0 ≤ ((TokenBucket.acquire ⟨5, 10, 1, 0⟩ 1 (3/10)).2).tokens ∧
    ((TokenBucket.acquire ⟨5, 10, 1, 0⟩ 1 (3/10)).2).tokens ≤
      ((((TokenBucket.acquire ⟨5, 10, 1, 0⟩ 1 (3/10)).2).capacity : ℚ)) :=
  (tokenBucket_invariant_holds.2 ⟨5, 10, 1, 0⟩ 1 (3/10) (by norm_num) (by norm_num)
    (by norm_num) (by norm_num) (by norm_num) (by norm_num)).1

/-- C3 (amended): a value stored by `set` with `ttl = t` (nonzero) is
returned by `get` at every time less than or equal to `t` after the set —
the boundary instant included, because expiry uses the strict comparison
`now > expires_at` — and `get` returns absent at every time strictly
greater than `t` after the set; an expired entry found by `get` is deleted
from the cache map (eviction-on-read). -/
theorem cache_ttl_expiry (c : MCPCache V) (key : String) (v : Option V)
    (t t₀ now : ℚ) (ht : t ≠ 0) :
    (now - t₀ ≤ t →
      (c.set key v (some t) t₀).get key now = (v, c.set key v (some t) t₀)) ∧
    (t < now - t₀ →
      (c.set key v (some t) t₀).get key now =
        (none, { c.set key v (some t) t₀ with
                   cache := alErase key (c.set key v (some t) t₀).cache })) := by
  have hget : alGet key (c.set key v (some t) t₀).cache =
      some ⟨v, t₀ + t⟩ := by
    simp [MCPCache.set, ttlOrDefault, ht, alGet_alSet_self]
  constructor
  · intro h
    have hlive : ¬ (now > t₀ + t) := not_lt.2 (by linarith)
    simp [MCPCache.get, hget, hlive]
  · intro h
    have hexp : now > t₀ + t := by linarith
    simp [MCPCache.get, hget, hexp]

unseal Rat.add Rat.sub Rat.mul Rat.inv in
/-- C3 counterexample: the claim asserts absence at every time `≥ t` after
the set, but at exactly `t = 5` seconds after a `set` with `ttl = 5`
(`now - t₀ = 5 ≥ 5`), `get` still returns the stored value because the
source checks `datetime.now() > expires_at` strictly. -/
theorem cache_ttl_expiry_counterexample :
    ((((MCPCache.init 3600 : MCPCache String).set "k" (some "v") (some 5) 0).get
        "k" 5).1 = some "v") ∧ ((5 : ℚ) - 0 ≥ 5) := by
  constructor
  · rfl
  · decide

unseal Rat.add Rat.sub Rat.mul Rat.inv in
theorem cache_ttl_expiry_witness :
    ((5 : ℚ) - 0 ≤ 5) ∧
    (((MCPCache.init 3600 : MCPCache String).set "k" (some "v") (some 5) 0).get
        "k" 5 =
      (some "v", (MCPCache.init 3600 : MCPCache String).set "k" (some "v") (some 5) 0)) :=
  ⟨by decide,
   (cache_ttl_expiry (MCPCache.init 3600) "k" (some "v") 5 0 5 (by decide)).1
     (by decide)⟩

/-- C9: passing `ttl_seconds = 0` to `set` does not create an
immediately-expired entry: `ttl_seconds or self._ttl_seconds` treats `0` as
falsy, so a zero TTL behaves exactly like passing no TTL at all, and on the
default cache (TTL 3600) the entry expires at `now + 3600`. -/
theorem set_zero_ttl_falls_back (c : MCPCache V) (key : String) (v : Option V)
    (now : ℚ) :
    c.set key v (some 0) now = c.set key v none now ∧
    (MCPCache.init 3600 : MCPCache V).set key v (some 0) now =
      ⟨[(key, ⟨v, now + 3600⟩)], 3600⟩ := by
  constructor
  · simp [MCPCache.set, ttlOrDefault]
  · simp [MCPCache.set, MCPCache.init, ttlOrDefault, alSet]

theorem colon_split (c : Char) :
    ∀ (l₁ l₂ r₁ r₂ : List Char), c ∉ l₁ → c ∉ l₂ →
      l₁ ++ c :: r₁ = l₂ ++ c :: r₂ → l₁ = l₂ := by
  intro l₁
  induction l₁ with
  | nil =>
    intro l₂ r₁ r₂ _ h₂ heq
    cases l₂ with
    | nil => rfl
    | cons b l₂ =>
      rw [List.nil_append, List.cons_append] at heq
      refine absurd ?_ h₂
      rw [← (List.cons.inj heq).1]
      exact List.mem_cons_self _ _
  | cons a l₁ ih =>
    intro l₂ r₁ r₂ h₁ h₂ heq
    cases l₂ with
    | nil =>
      rw [List.nil_append, List.cons_append] at heq
      refine absurd ?_ h₁
      rw [(List.cons.inj heq).1]
      exact List.mem_cons_self _ _
    | cons b l₂ =>
      rw [List.cons_append, List.cons_append] at heq
      have hab := (List.cons.inj heq).1
      have htl := ih l₂ r₁ r₂ (fun hm => h₁ (List.mem_cons_of_mem _ hm))
        (fun hm => h₂ (List.mem_cons_of_mem _ hm)) (List.cons.inj heq).2
      rw [hab, htl]

theorem generateKey_ok_shape {t : String} {a : PyList} {kw : PyFields}
    {k : String} (h : generateKey t a kw = .ok k) :
    ∃ rest : List Char, k.data = t.data ++ ':' :: rest := by
  cases hA : dumps (.vlist a) with
  | error m =>
    rw [generateKey, hA] at h
    exact nomatch h
  | ok argsStr =>
    cases hB : dumps (.vdict kw) with
    | error m =>
      rw [generateKey, hA, hB] at h
      exact nomatch h
    | ok kwargsStr =>
      rw [generateKey, hA, hB] at h
      cases h
      refine ⟨argsStr.data ++ ':' :: kwargsStr.data, ?_⟩
      show (t ++ ":" ++ argsStr ++ ":" ++ kwargsStr).data = _
      simp [String.data_append, List.append_assoc]

/-- C6: the cache key is deterministic — for equal
`(operation_name, args, kwargs)` triples, with the kwargs dict given in any
insertion order (same fields up to permutation, keys distinct as in every
Python dict), `_generate_key` produces the same key — and two calls whose
operation names differ (names free of `':'`, as every `func.__name__` is)
produce different keys, because the name is a `':'`-delimited prefix of the
hashed input. -/
theorem cache_key_deterministic_and_injective :
    (∀ (tool : String) (args : PyList) (kw₁ kw₂ : PyFields) (k : String),
      kw₁.toList.Perm kw₂.toList →
      (kw₁.toList.map Prod.fst).Nodup →
      generateKey tool args kw₁ = .ok k →
      generateKey tool args kw₂ = .ok k) ∧
    (∀ (t₁ t₂ : String) (a₁ a₂ : PyList) (kw₁ kw₂ : PyFields) (k₁ k₂ : String),
      ':' ∉ t₁.data → ':' ∉ t₂.data → t₁ ≠ t₂ →
      generateKey t₁ a₁ kw₁ = .ok k₁ →
      generateKey t₂ a₂ kw₂ = .ok k₂ →
      k₁ ≠ k₂) := by
  constructor
  · intro tool args kw₁ kw₂ k hperm hnd hk
    cases hA : dumps (.vlist args) with
    | error m =>
      rw [generateKey, hA] at hk
      exact nomatch hk
    | ok argsStr =>
      cases hB : dumps (.vdict kw₁) with
      | error m =>
        rw [generateKey, hA, hB] at hk
        exact nomatch hk
      | ok K₁ =>
        cases hps₁ : dumpsFields kw₁ with
        | error m =>
          rw [dumps, hps₁] at hB
          exact nomatch hB
        | ok ps₁ =>
          rw [dumps, hps₁] at hB
          have hK₁ : K₁ =
              "\x7b" ++ String.intercalate ", "
                ((sortPairs ps₁).map renderField) ++ "\x7d" :=
            (Except.ok.inj hB).symm
          obtain ⟨ps₂, hps₂⟩ := dumpsFields_exists_ok
            (fun kv hkv => dumpsFields_ok_mem hps₁ kv (hperm.mem_iff.2 hkv))
          have heq₁ := dumpsFields_ok_eq hps₁
          have heq₂ := dumpsFields_ok_eq hps₂
          have hpp : ps₁.Perm ps₂ := by
            rw [heq₁, heq₂]
            exact hperm.map dumpField
          have hfst : Prod.fst ∘ dumpField = (Prod.fst : String × PyVal → String) :=
            funext fun kv => rfl
          have hndps : (ps₁.map Prod.fst).Nodup := by
            rw [heq₁, List.map_map, hfst]
            exact hnd
          have hsort : sortPairs ps₁ = sortPairs ps₂ :=
            sortPairs_eq_of_perm hpp hndps
          have hB₂ : dumps (.vdict kw₂) = .ok K₁ := by
            rw [dumps, hps₂, hK₁, hsort]
          rw [generateKey, hA, hB₂]
          rw [generateKey, hA] at hk
          cases hB₃ : dumps (.vdict kw₁) with
          | error m => rw [hB₃] at hk; exact nomatch hk
          | ok K₃ =>
            rw [hB₃] at hk
            have : K₃ = K₁ := by
              rw [dumps, hps₁] at hB₃
              rw [← Except.ok.inj hB₃, hK₁]
            rw [← this]
            exact hk
  · intro t₁ t₂ a₁ a₂ kw₁ kw₂ k₁ k₂ hc₁ hc₂ hne hk₁ hk₂ hkk
    obtain ⟨r₁, hr₁⟩ := generateKey_ok_shape hk₁
    obtain ⟨r₂, hr₂⟩ := generateKey_ok_shape hk₂
    rw [hkk, hr₂] at hr₁
    exact hne (String.ext (colon_split ':' t₁.data t₂.data r₁ r₂ hc₁ hc₂ hr₁.symm))

theorem cache_key_deterministic_and_injective_witness :
    (generateKey "f" .nil (.cons "a" (.vint 2) (.cons "b" (.vint 1) .nil)) =
      .ok "f:[]:\x7b\"a\": 2, \"b\": 1\x7d") ∧
    ("f:[]:\x7b\x7d" ≠ "g:[]:\x7b\x7d") :=
  ⟨cache_key_deterministic_and_injective.1 "f" .nil
      (.cons "b" (.vint 1) (.cons "a" (.vint 2) .nil))
      (.cons "a" (.vint 2) (.cons "b" (.vint 1) .nil))
      "f:[]:\x7b\"a\": 2, \"b\": 1\x7d"
      (List.Perm.swap ("a", PyVal.vint 2) ("b", PyVal.vint 1) [])
      (by decide) (by rfl),
   cache_key_deterministic_and_injective.2 "f" "g" .nil .nil .nil .nil
      "f:[]:\x7b\x7d" "g:[]:\x7b\x7d"
      (by decide) (by decide) (by decide) (by rfl) (by rfl)⟩

theorem MCPCache.get_none_again (c : MCPCache V) (key : String) (t t₂ : ℚ)
    (hnd : (c.cache.map Prod.fst).Nodup)
    (h : (c.get key t).1 = none) :
    (((c.get key t).2).get key t₂).1 = none := by
  cases hg : alGet key c.cache with
  | none =>
    simp only [MCPCache.get, hg]
  | some entry =>
    by_cases hexp : t > entry.expires_at
    · simp only [MCPCache.get, hg, if_pos hexp,
        alGet_alErase_self key c.cache hnd]
    · simp only [MCPCache.get, hg, if_neg hexp] at h ⊢
      by_cases hexp₂ : t₂ > entry.expires_at
      · simp only [if_pos hexp₂]
      · simp only [if_neg hexp₂]
        exact h

theorem MCPCache.get_of_value_none (c : MCPCache V) (key : String)
    (e : ℚ) (t : ℚ) (hg : alGet key c.cache = some ⟨none, e⟩) :
    (c.get key t).1 = none := by
  simp only [MCPCache.get, hg]
  by_cases hexp : t > e
  · simp only [if_pos hexp]
  · simp only [if_neg hexp]

/-- C7: if the wrapped operation raises on a cache miss, the failure
propagates (`fromFunc`), nothing is written to the cache (the state is
exactly what `get` left: at most an expired-entry eviction), and a second
call with identical arguments misses again and invokes the wrapped
operation again — no poisoned cache. -/
theorem cache_failure_propagates_not_cached
    (fname : String) (ttl : Option ℚ)
    (f : PyList → PyFields → Except E (Option V))
    (args : PyList) (kwargs : PyFields) (c : MCPCache V)
    (tGet tSet tGet₂ tSet₂ : ℚ) (key : String) (e : E)
    (hkey : generateKey fname args kwargs = .ok key)
    (hnd : (c.cache.map Prod.fst).Nodup)
    (hmiss : (c.get key tGet).1 = none)
    (hf : f args kwargs = .error e) :
    cacheWrapper fname ttl f args kwargs c tGet tSet =
      (.error (.fromFunc e), (c.get key tGet).2, true) ∧
    cacheWrapper fname ttl f args kwargs ((c.get key tGet).2) tGet₂ tSet₂ =
      (.error (.fromFunc e), (((c.get key tGet).2).get key tGet₂).2, true) := by
  have hmiss₂ : (((c.get key tGet).2).get key tGet₂).1 = none :=
    MCPCache.get_none_again c key tGet tGet₂ hnd hmiss
  rcases hG : c.get key tGet with ⟨r, c₂⟩
  rw [hG] at hmiss hmiss₂
  subst hmiss
  rcases hG₂ : c₂.get key tGet₂ with ⟨r₂, c₃⟩
  rw [hG₂] at hmiss₂
  subst hmiss₂
  constructor
  · simp only [cacheWrapper, hkey, hG, hf]
  · simp only [cacheWrapper, hkey, hG₂, hf]

/-- A wrapped operation that always fails (used to instantiate claims about
failing upstream calls). -/
def fBoom : PyList → PyFields → Except String (Option String) :=
  fun _ _ => .error "boom"

theorem cache_failure_propagates_not_cached_witness :
    cacheWrapper "f" none fBoom .nil .nil (MCPCache.init 3600 : MCPCache String) 0 0 =
      (.error (.fromFunc "boom"),
       ((MCPCache.init 3600 : MCPCache String).get "f:[]:\x7b\x7d" 0).2, true) :=
  (cache_failure_propagates_not_cached "f" none fBoom .nil .nil
    (MCPCache.init 3600) 0 0 0 0 "f:[]:\x7b\x7d" "boom" (by rfl) (by decide)
    (by rfl) (by rfl)).1

/-- C8: when the wrapped operation returns Python `None` on a miss, the
wrapper stores the `None` result, but — because the hit test is
`cached_result is not None` and `get` returns the stored `None` — every
subsequent call with identical arguments is treated as a cache miss: the
`None` is never served from the cache and the wrapped operation is invoked
again. -/
theorem cache_none_result_not_served
    (fname : String) (ttl : Option ℚ)
    (f : PyList → PyFields → Except E (Option V))
    (args : PyList) (kwargs : PyFields) (c : MCPCache V)
    (tGet tSet tGet₂ tSet₂ : ℚ) (key : String)
    (hkey : generateKey fname args kwargs = .ok key)
    (hmiss : (c.get key tGet).1 = none)
    (hf : f args kwargs = .ok none) :
    cacheWrapper fname ttl f args kwargs c tGet tSet =
      (.ok none, ((c.get key tGet).2).set key none ttl tSet, true) ∧
    alGet key (((c.get key tGet).2).set key none ttl tSet).cache =
      some ⟨none, tSet + ttlOrDefault ttl c.ttl_seconds⟩ ∧
    (cacheWrapper fname ttl f args kwargs
        (((c.get key tGet).2).set key none ttl tSet) tGet₂ tSet₂).1 = .ok none ∧
    (cacheWrapper fname ttl f args kwargs
        (((c.get key tGet).2).set key none ttl tSet) tGet₂ tSet₂).2.2 = true := by
  have hstore : alGet key (((c.get key tGet).2).set key none ttl tSet).cache =
      some ⟨none, tSet + ttlOrDefault ttl c.ttl_seconds⟩ := by
    rw [MCPCache.set, alGet_alSet_self, MCPCache.get_ttl_eq]
  have hmiss₂ : ((((c.get key tGet).2).set key none ttl tSet).get key tGet₂).1 =
      none :=
    MCPCache.get_of_value_none _ key _ tGet₂ hstore
  refine ⟨?_, hstore, ?_, ?_⟩
  · rcases hG : c.get key tGet with ⟨r, c₂⟩
    rw [hG] at hmiss
    subst hmiss
    simp only [cacheWrapper, hkey, hG, hf]
  · rcases hG₂ : ((c.get key tGet).2).set key none ttl tSet |>.get key tGet₂
      with ⟨r₂, c₃⟩
    rw [hG₂] at hmiss₂
    subst hmiss₂
    simp only [cacheWrapper, hkey, hG₂, hf]
  · rcases hG₂ : ((c.get key tGet).2).set key none ttl tSet |>.get key tGet₂
      with ⟨r₂, c₃⟩
    rw [hG₂] at hmiss₂
    subst hmiss₂
    simp only [cacheWrapper, hkey, hG₂, hf]

/-- A wrapped operation that always returns Python `None`. -/
def fNone : PyList → PyFields → Except String (Option String) :=
  fun _ _ => .ok none

theorem cache_none_result_not_served_witness :
    cacheWrapper "f" none fNone .nil .nil (MCPCache.init 3600 : MCPCache String) 0 0 =
      (.ok none,
       (((MCPCache.init 3600 : MCPCache String).get "f:[]:\x7b\x7d" 0).2).set
         "f:[]:\x7b\x7d" none none 0, true) :=
  (cache_none_result_not_served "f" none fNone .nil .nil (MCPCache.init 3600)
    0 0 0 0 "f:[]:\x7b\x7d" (by rfl) (by rfl) (by rfl)).1

theorem dumpsList_error_of_mem : ∀ {xs : PyList} {a : PyVal} {m : String},
    a ∈ xs.toList → dumps a = .error m → ∃ m₂, dumpsList xs = .error m₂
  | .nil, a, _, ha, _ => absurd ha (List.not_mem_nil a)
  | .cons x xs, a, m, ha, he => by
    cases hx : dumps x with
    | error m₂ => exact ⟨m₂, by rw [dumpsList, hx]⟩
    | ok s =>
      rcases List.mem_cons.1 ha with h | h
      · subst h
        rw [hx] at he
        exact nomatch he
      · obtain ⟨m₂, hm₂⟩ := dumpsList_error_of_mem h he
        exact ⟨m₂, by rw [dumpsList, hx, hm₂]⟩

theorem dumpsFields_error_of_mem :
    ∀ {fs : PyFields} {kv : String × PyVal} {m : String},
      kv ∈ fs.toList → dumps kv.2 = .error m →
      ∃ m₂, dumpsFields fs = .error m₂
  | .nil, kv, _, hkv, _ => absurd hkv (List.not_mem_nil kv)
  | .cons k v fs, kv, m, hkv, he => by
    cases hv : dumps v with
    | error m₂ => exact ⟨m₂, by rw [dumpsFields, hv]⟩
    | ok s =>
      rcases List.mem_cons.1 hkv with h | h
      · subst h
        rw [hv] at he
        exact nomatch he
      · obtain ⟨m₂, hm₂⟩ := dumpsFields_error_of_mem h he
        exact ⟨m₂, by rw [dumpsFields, hv, hm₂]⟩

/-- C10: if any positional or keyword argument is not JSON-serializable
(its `dumps` fails), the wrapper fails while computing the cache key —
`json.dumps` raises inside `_generate_key` — before the wrapped operation
is ever invoked, so the operation is not reached and the cache is
unchanged. -/
theorem cache_unserializable_fails_before_invoke
    (fname : String) (ttl : Option ℚ)
    (f : PyList → PyFields → Except E (Option V))
    (args : PyList) (kwargs : PyFields) (c : MCPCache V) (tGet tSet : ℚ)
    (hbad : (∃ a ∈ args.toList, ∃ m, dumps a = .error m) ∨
            (∃ kv ∈ kwargs.toList, ∃ m, dumps kv.2 = .error m)) :
    ∃ m, generateKey fname args kwargs = .error m ∧
      cacheWrapper fname ttl f args kwargs c tGet tSet =
        (.error (.serialization m), c, false) := by
  have hk : ∃ m, generateKey fname args kwargs = .error m := by
    cases hA : dumps (.vlist args) with
    | error m => exact ⟨m, by rw [generateKey, hA]⟩
    | ok A =>
      cases hbad with
      | inl h =>
        obtain ⟨a, ha, m, hm⟩ := h
        obtain ⟨m₂, hm₂⟩ := dumpsList_error_of_mem ha hm
        rw [dumps, hm₂] at hA
        exact nomatch hA
      | inr h =>
        obtain ⟨kv, hkv, m, hm⟩ := h
        obtain ⟨m₂, hm₂⟩ := dumpsFields_error_of_mem hkv hm
        refine ⟨m₂, ?_⟩
        rw [generateKey, hA, dumps, hm₂]
  obtain ⟨m, hm⟩ := hk
  exact ⟨m, hm, by rw [cacheWrapper, hm]⟩

theorem cache_unserializable_fails_before_invoke_witness :
    generateKey "f" (.cons (.vobj "set") .nil) .nil =
      .error "Object of type set is not JSON serializable" ∧
    cacheWrapper "f" none fBoom (.cons (.vobj "set") .nil) .nil
        (MCPCache.init 3600 : MCPCache String) 0 0 =
      (.error (.serialization "Object of type set is not JSON serializable"),
       MCPCache.init 3600, false) := by
  obtain ⟨m, hm, hw⟩ := cache_unserializable_fails_before_invoke "f" none fBoom
    (.cons (.vobj "set") .nil) .nil (MCPCache.init 3600) 0 0
    (Or.inl ⟨.vobj "set", List.mem_cons_self _ _,
      "Object of type set is not JSON serializable", rfl⟩)
  have hmv : m = "Object of type set is not JSON serializable" :=
    Except.error.inj (hm.symm.trans (by rfl))
  subst hmv
  exact ⟨hm, hw⟩

/-- C2 (amended): when the bucket check fails, the wrapped operation is not
invoked and an `MCPRateLimitError` is raised carrying the operation name and
a retry-after hint computed as
`1.0 / tool_limits.get(actual_tool, (1, 1))[0]`: that is `1 / rate` for
operation names present in `tool_limits`, but a fixed `1.0` seconds (from
the hard-coded `(1, 1)` fallback) for names that are not configured — not
`1 / rate` of the default bucket that actually governed the call. -/
theorem rateLimit_rejects_without_invoking
    (tool_name : Option String) (fname : String) (cost : ℤ)
    (g : α → Except E β) (x : α) (rl : RateLimiter) (now : ℚ)
    (hfail : (rl.checkRateLimit (tool_name.getD fname) cost now).1 = some false) :
    rateLimitWrapper tool_name fname cost g x rl now =
      (.error (.rateLimited (tool_name.getD fname)
        (1 / ((alGet (tool_name.getD fname) rl.tool_limits).getD (1, 1)).1)),
       (rl.checkRateLimit (tool_name.getD fname) cost now).2, false) ∧
    (∀ (r : ℚ) (cap : ℤ),
      alGet (tool_name.getD fname) rl.tool_limits = some (r, cap) →
      ((alGet (tool_name.getD fname) rl.tool_limits).getD (1, 1)).1 = r) ∧
    (alGet (tool_name.getD fname) rl.tool_limits = none →
      (1 : ℚ) / ((alGet (tool_name.getD fname) rl.tool_limits).getD (1, 1)).1 = 1) := by
  rcases hC : rl.checkRateLimit (tool_name.getD fname) cost now with ⟨okb, rl₂⟩
  rw [hC] at hfail
  have hok : okb = some false := hfail
  subst hok
  refine ⟨?_, ?_, ?_⟩
  · simp only [rateLimitWrapper, hC]
  · intro r cap hr
    rw [hr]
    rfl
  · intro hnone
    rw [hnone]
    norm_num

/-- A wrapped operation used to instantiate rate-limiter claims. -/
def gOk : Unit → Except String String := fun _ => .ok "ok"

/-- The rate-limiter registry after the default bucket has been fully
drained at time 0 (the state reached after 20 successful default-bucket
acquisitions at time 0): buckets as created by `RateLimiter.init 0`, with
the `"default"` bucket at 0 tokens. -/
def rlDrained : RateLimiter :=
  { tool_limits := toolLimitsInit,
    limiters := alSet "default" ⟨10, 20, 0, 0⟩ (RateLimiter.init 0).limiters }

unseal Rat.add Rat.sub Rat.mul Rat.inv in
/-- C2 counterexample: `"tavily_web_search"` is not in `tool_limits`, so its
calls are governed by the `"default"` bucket (rate 10/s) — the claim then
demands a retry-after of `1/10` s — but the raised error carries `1.0` s,
computed from the hard-coded `(1, 1)` fallback. -/
theorem rateLimit_retry_after_counterexample :
    (rateLimitWrapper (some "tavily_web_search") "tavily_web_search" 1 gOk ()
        rlDrained 0).1 =
      .error (.rateLimited "tavily_web_search" 1) ∧
    alGet "tavily_web_search" rlDrained.limiters = none ∧
    (alGet "default" rlDrained.limiters).map TokenBucket.rate = some 10 ∧
    ((1 : ℚ) ≠ 1 / 10) := by
  refine ⟨rfl, rfl, rfl, by decide⟩

unseal Rat.add Rat.sub Rat.mul Rat.inv in
theorem rateLimit_rejects_without_invoking_witness :
    rateLimitWrapper (some "tavily_web_search") "tavily_web_search" 1 gOk ()
        rlDrained 0 =
      (.error (.rateLimited "tavily_web_search"
        (1 / ((alGet "tavily_web_search" rlDrained.tool_limits).getD (1, 1)).1)),
       (rlDrained.checkRateLimit "tavily_web_search" 1 0).2, false) :=
  (rateLimit_rejects_without_invoking (some "tavily_web_search")
    "tavily_web_search" 1 gOk () rlDrained 0 (by decide)).1

/-- C1 (amended): with the decorator order of `main.py`
(`@rate_limit` above `@cache_mcp_result`, i.e. the limiter outermost), a
call whose arguments hit a live cache entry returns the cached value
without invoking the wrapped operation, but it first passes through the
rate limiter, which deducts `cost` tokens from the governing bucket on
success — a cache hit does consume a rate-limit token; and a call rejected
by the rate limiter never invokes the wrapped operation and leaves the
cache untouched. -/
theorem composed_hit_pays_token_and_reject_skips :
    (∀ (tool_name : Option String) (fname : String) (cost : ℤ)
       (ttl : Option ℚ) (f : PyList → PyFields → Except E (Option V))
       (args : PyList) (kwargs : PyFields) (rl : RateLimiter) (c : MCPCache V)
       (now tSet : ℚ) (key : String) (entry : CacheEntry V) (v : V),
      generateKey fname args kwargs = .ok key →
      alGet key c.cache = some entry →
      ¬ (now > entry.expires_at) →
      entry.value = some v →
      (rl.checkRateLimit (tool_name.getD fname) cost now).1 = some true →
      composedCall tool_name fname cost ttl f args kwargs rl c now tSet =
        (.ok (some v),
         (rl.checkRateLimit (tool_name.getD fname) cost now).2, c, false) ∧
      (∀ b : TokenBucket, alGet (tool_name.getD fname) rl.limiters = some b →
        alGet (tool_name.getD fname)
            ((rl.checkRateLimit (tool_name.getD fname) cost now).2).limiters =
          some (b.acquire cost now).2 ∧
        (b.acquire cost now).1 = true ∧
        ((b.acquire cost now).2).tokens = (b.addTokens now).tokens - (cost : ℚ))) ∧
    (∀ (tool_name : Option String) (fname : String) (cost : ℤ)
       (ttl : Option ℚ) (f : PyList → PyFields → Except E (Option V))
       (args : PyList) (kwargs : PyFields) (rl : RateLimiter) (c : MCPCache V)
       (now tSet : ℚ),
      (rl.checkRateLimit (tool_name.getD fname) cost now).1 = some false →
      composedCall tool_name fname cost ttl f args kwargs rl c now tSet =
        (.error (.rateLimited (tool_name.getD fname)
          (1 / ((alGet (tool_name.getD fname) rl.tool_limits).getD (1, 1)).1)),
         (rl.checkRateLimit (tool_name.getD fname) cost now).2, c, false)) := by
  constructor
  · intro tool_name fname cost ttl f args kwargs rl c now tSet key entry v
      hkey hentry hlive hval hok
    have hGet : c.get key now = (some v, c) := by
      simp only [MCPCache.get, hentry, if_neg hlive, hval]
    have hW : cacheWrapper fname ttl f args kwargs c now tSet =
        (.ok (some v), c, false) := by
      simp only [cacheWrapper, hkey, hGet]
    rcases hC : rl.checkRateLimit (tool_name.getD fname) cost now with ⟨okb, rl₂⟩
    rw [hC] at hok
    have hokb : okb = some true := hok
    subst hokb
    constructor
    · simp only [composedCall, hC, hW]
    · intro b hb
      rcases hA : b.acquire cost now with ⟨okA, bA⟩
      simp only [RateLimiter.checkRateLimit, hb, hA] at hC
      have hokA : okA = true := by
        have h₁ := congrArg Prod.fst hC
        simpa using h₁
      have h₂ : rl₂ = { rl with
          limiters := alSet (tool_name.getD fname) bA rl.limiters } := by
        have h₃ := congrArg Prod.snd hC
        exact h₃.symm
      refine ⟨?_, hokA, ?_⟩
      · rw [h₂]
        exact alGet_alSet_self _ _ _
      · rw [TokenBucket.acquire] at hA
        by_cases hcond : (cost : ℚ) ≤ (b.addTokens now).tokens
        · rw [if_pos hcond] at hA
          have h₄ := (Prod.mk.inj hA).2
          rw [← h₄]
        · rw [if_neg hcond] at hA
          have h₅ := (Prod.mk.inj hA).1
          rw [hokA] at h₅
          exact nomatch h₅
  · intro tool_name fname cost ttl f args kwargs rl c now tSet hfail
    rcases hC : rl.checkRateLimit (tool_name.getD fname) cost now with ⟨okb, rl₂⟩
    rw [hC] at hfail
    have hokb : okb = some false := hfail
    subst hokb
    simp only [composedCall, hC]

/-- A cache holding one live entry for a `tavily_web_search` call with
positional argument `"q"` (the key is the hashed input computed by
`_generate_key`), expiring at time 100. -/
def cHit : MCPCache String :=
  ⟨[("tavily_web_search:[\"q\"]:\x7b\x7d", ⟨some "cached", 100⟩)], 3600⟩

/-- A wrapped operation returning a fresh (non-cached) value. -/
def fFresh : PyList → PyFields → Except String (Option String) :=
  fun _ _ => .ok (some "fresh")

/-- The positional arguments `("q",)`. -/
def qArgs : PyList := .cons (.vstr "q") .nil

unseal Rat.add Rat.sub Rat.mul Rat.inv in
/-- C1 counterexample: with the composition order in `main.py` (limiter
outermost), a call that hits a live cache entry still passes through the
limiter first: the result comes from the cache and the wrapped operation is
not invoked, yet the `"default"` bucket governing `tavily_web_search` drops
from 20 tokens to 19 — the token count does not stay unchanged as the claim
asserts. -/
theorem composed_cache_hit_counterexample :
    (composedCall (some "tavily_web_search") "tavily_web_search" 1 (some 1800)
        fFresh qArgs .nil (RateLimiter.init 0) cHit 0 0).1 = .ok (some "cached") ∧
    (composedCall (some "tavily_web_search") "tavily_web_search" 1 (some 1800)
        fFresh qArgs .nil (RateLimiter.init 0) cHit 0 0).2.2.2 = false ∧
    (alGet "default" (RateLimiter.init 0).limiters).map TokenBucket.tokens =
      some 20 ∧
    (alGet "default"
        ((composedCall (some "tavily_web_search") "tavily_web_search" 1
          (some 1800) fFresh qArgs .nil (RateLimiter.init 0) cHit 0 0).2.1).limiters).map
        TokenBucket.tokens = some 19 ∧
    ((19 : ℚ) ≠ 20) := by
  refine ⟨rfl, rfl, rfl, rfl, by decide⟩

unseal Rat.add Rat.sub Rat.mul Rat.inv in
theorem composed_hit_pays_token_and_reject_skips_witness :
    (composedCall (some "tavily_web_search") "tavily_web_search" 1 (some 1800)
        fFresh qArgs .nil (RateLimiter.init 0) cHit 0 0 =
      (.ok (some "cached"),
       ((RateLimiter.init 0).checkRateLimit "tavily_web_search" 1 0).2,
       cHit, false)) ∧
    (composedCall (some "x") "x" 1 none fFresh .nil .nil rlDrained cHit 0 0 =
      (.error (.rateLimited "x"
        (1 / ((alGet "x" rlDrained.tool_limits).getD (1, 1)).1)),
       (rlDrained.checkRateLimit "x" 1 0).2, cHit, false)) :=
  ⟨(composed_hit_pays_token_and_reject_skips.1 (some "tavily_web_search")
      "tavily_web_search" 1 (some 1800) fFresh qArgs .nil (RateLimiter.init 0)
      cHit 0 0 "tavily_web_search:[\"q\"]:\x7b\x7d" ⟨some "cached", 100⟩
      "cached" (by rfl) (by rfl) (by decide) (by rfl) (by decide)).1,
   composed_hit_pays_token_and_reject_skips.2 (some "x") "x" 1 none fFresh
      .nil .nil rlDrained cHit 0 0 (by decide)⟩
